import Mathlib

/-!
Verification of the simple-rays ray tracer core (src/vector.rs, src/line.rs,
src/surface.rs, src/main.rs) against its specification.

Modelling conventions: Rust f64 and f32 values are modelled as exact
rationals; the floating-point tolerance 1e-8 is kept literally.  The hardware
square root has no rational counterpart, so every definition that needs it
takes an explicit parameter sq standing for f64::sqrt; no theorem below relies
on any property of sq.  Rust Option becomes Option, Result becomes Except.
-/

namespace Rays

/-- FLOAT_EPS constant from main.rs. -/
def FLOAT_EPS : ℚ := 1 / 100000000

/-- is_zero from main.rs: f.abs() <= FLOAT_EPS. -/
def is_zero (f : ℚ) : Bool := decide (|f| ≤ FLOAT_EPS)

/-- Point from vector.rs; Vector is the same type (pub type Vector = Point). -/
structure Point where
  x : ℚ
  y : ℚ
  z : ℚ
deriving DecidableEq

abbrev Vector := Point

/-- The zero vector, vector!() in vector.rs. -/
def zeroVec : Vector := ⟨0, 0, 0⟩

/-- impl Add for Point in vector.rs. -/
instance : Add Point := ⟨fun a b => ⟨a.x + b.x, a.y + b.y, a.z + b.z⟩⟩

theorem Point.add_def (a b : Point) :
    a + b = ⟨a.x + b.x, a.y + b.y, a.z + b.z⟩ := rfl

/-- impl Mul of f64 and Vector in vector.rs (componentwise scaling). -/
def Point.smul (k : ℚ) (v : Vector) : Vector := ⟨k * v.x, k * v.y, k * v.z⟩

/-- The vector!(a, b) macro from vector.rs: the vector from a to b. -/
def Point.fromTo (a b : Point) : Vector := ⟨b.x - a.x, b.y - a.y, b.z - a.z⟩

/-- Vector::dot from vector.rs. -/
def Point.dot (v v2 : Vector) : ℚ := v.x * v2.x + v.y * v2.y + v.z * v2.z

/-- Vector::cross from vector.rs, with the source's sign convention on the
middle component. -/
def Point.cross (v v2 : Vector) : Vector :=
  ⟨v.y * v2.z - v.z * v2.y, -(v.x * v2.z - v.z * v2.x), v.x * v2.y - v.y * v2.x⟩

/-- Vector::len from vector.rs; sq models f64::sqrt. -/
def Point.len (sq : ℚ → ℚ) (v : Vector) : ℚ := sq (v.x * v.x + v.y * v.y + v.z * v.z)

/-- Vector::is_zero from vector.rs. -/
def Point.is_zero (v : Vector) : Bool :=
  Rays.is_zero v.x && Rays.is_zero v.y && Rays.is_zero v.z

/-- Vector::normalized from vector.rs: divide by the length unless the vector
is (near) zero, in which case return the zero vector. -/
def Point.normalized (sq : ℚ → ℚ) (v : Vector) : Vector :=
  if !v.is_zero then
    ⟨v.x / v.len sq, v.y / v.len sq, v.z / v.len sq⟩
  else zeroVec

/-- Vector::cos from vector.rs. -/
def Point.cos (sq : ℚ → ℚ) (v v2 : Vector) : ℚ :=
  v.dot v2 / (v.len sq * v2.len sq)

/-- Vector::is_collinear from vector.rs. -/
def Point.is_collinear (v v2 : Vector) : Bool := (v.cross v2).is_zero

/-- Vector::is_codirectional from vector.rs: collinear and all componentwise
products are at least -FLOAT_EPS. -/
def Point.is_codirectional (v v2 : Vector) : Bool :=
  v.is_collinear v2 && decide (v.x * v2.x ≥ -FLOAT_EPS)
    && decide (v.y * v2.y ≥ -FLOAT_EPS) && decide (v.z * v2.z ≥ -FLOAT_EPS)

/-- Line from line.rs. -/
structure Line where
  direction : Vector
  origin : Point
deriving DecidableEq

/-- Line::at from line.rs: origin + t * direction. -/
def Line.at (l : Line) (t : ℚ) : Point := l.origin + Point.smul t l.direction

/-- MathError from main.rs; CollinearVectors is its only variant. -/
inductive MathError where
  | collinearVectors
deriving DecidableEq

/-- MathResult from main.rs. -/
abbrev MathResult (α : Type) := Except MathError α

/-- Plane from surface.rs: the implicit surface a*x + b*y + c*z + d = 0. -/
structure Plane where
  a : ℚ
  b : ℚ
  c : ℚ
  d : ℚ
deriving DecidableEq

/-- Plane::new from surface.rs: fails when the spanning vectors have a (near)
zero cross product, otherwise uses the cross product as the normal and picks d
so that the plane passes through p. -/
def Plane.new (p : Point) (v1 v2 : Vector) : MathResult Plane :=
  if (v1.cross v2).is_zero then .error .collinearVectors
  else .ok ⟨(v1.cross v2).x, (v1.cross v2).y, (v1.cross v2).z,
    -((v1.cross v2).x * p.x + (v1.cross v2).y * p.y + (v1.cross v2).z * p.z)⟩

/-- Plane::subs from surface.rs. -/
def Plane.subs (pl : Plane) (pt : Point) : ℚ :=
  pl.a * pt.x + pl.b * pt.y + pl.c * pt.z + pl.d

/-- Plane::contains from surface.rs. -/
def Plane.contains (pl : Plane) (pt : Point) : Bool := is_zero (pl.subs pt)

/-- Plane::normal from surface.rs. -/
def Plane.normal (pl : Plane) : Vector := ⟨pl.a, pl.b, pl.c⟩

/-- Plane::intersect from surface.rs. -/
def Plane.intersect (pl : Plane) (l : Line) : Option ℚ :=
  let sum_t := pl.a * l.direction.x + pl.b * l.direction.y + pl.c * l.direction.z
  let sum_rhs := -pl.d - pl.a * l.origin.x - pl.b * l.origin.y - pl.c * l.origin.z
  if is_zero sum_t then none else some (sum_rhs / sum_t)

/-- Triangle from surface.rs: three vertices and the plane through them. -/
structure Triangle where
  v0 : Point
  v1 : Point
  v2 : Point
  plane : Plane
deriving DecidableEq

/-- Triangle::new from surface.rs. -/
def Triangle.new (p1 p2 p3 : Point) : MathResult Triangle :=
  match Plane.new p1 (Point.fromTo p1 p2) (Point.fromTo p1 p3) with
  | .error e => .error e
  | .ok plane => .ok ⟨p1, p2, p3, plane⟩

/-- The three cross products computed inside Triangle::is_inside, in iteration
order: cross(vertex→pt, vertex→next_vertex) for each vertex, indices mod 3. -/
def Triangle.edgeCross (t : Triangle) (pt : Point) : List Vector :=
  [Point.cross (Point.fromTo t.v0 pt) (Point.fromTo t.v0 t.v1),
   Point.cross (Point.fromTo t.v1 pt) (Point.fromTo t.v1 t.v2),
   Point.cross (Point.fromTo t.v2 pt) (Point.fromTo t.v2 t.v0)]

/-- The fold step of Triangle::is_inside: accept v if it is codirectional with
the running sum, extending the sum; a single failure is absorbing. -/
def insideStep (last_opt : Option Vector) (v : Vector) : Option Vector :=
  match last_opt with
  | some last => if v.is_codirectional last then some (v + last) else none
  | none => none

/-- Triangle::is_inside from surface.rs: fold over the three edge cross
products, seeded with the zero vector. -/
def Triangle.is_inside (t : Triangle) (pt : Point) : Bool :=
  ((t.edgeCross pt).foldl insideStep (some zeroVec)).isSome

/-- Triangle::intersect from surface.rs. -/
def Triangle.intersect (t : Triangle) (l : Line) : Option ℚ :=
  match t.plane.intersect l with
  | none => none
  | some param => if t.is_inside (l.at param) then some param else none

/-- Triangle::contains from surface.rs. -/
def Triangle.contains (t : Triangle) (pt : Point) : Bool :=
  t.plane.contains pt && t.is_inside pt

theorem is_zero_false_ne {q : ℚ} (h : is_zero q = false) : q ≠ 0 := by
  intro h0
  rw [h0] at h
  simp [is_zero, FLOAT_EPS] at h

/-- C4: Plane::intersect returns no intersection exactly when the denominator
a*dx + b*dy + c*dz is within 1e-8 of zero; otherwise the returned parameter t
makes line.at(t) satisfy the plane equation exactly; and the parameter is
signed (it can be negative). -/
theorem c4_plane_intersect (pl : Plane) (l : Line) :
    (pl.intersect l = none ↔
      |pl.a * l.direction.x + pl.b * l.direction.y + pl.c * l.direction.z| ≤ FLOAT_EPS)
    ∧ (∀ t : ℚ, pl.intersect l = some t → pl.subs (l.at t) = 0)
    ∧ (∃ (pl2 : Plane) (l2 : Line) (t2 : ℚ), pl2.intersect l2 = some t2 ∧ t2 < 0) := by
  refine ⟨?_, ?_, ?_⟩
  · constructor
    · intro hnone
      by_contra hgt
      have hz : is_zero (pl.a * l.direction.x + pl.b * l.direction.y + pl.c * l.direction.z)
          = false := by
        simp only [is_zero, decide_eq_false_iff_not]
        exact hgt
      simp [Plane.intersect, hz] at hnone
    · intro hle
      have hz : is_zero (pl.a * l.direction.x + pl.b * l.direction.y + pl.c * l.direction.z)
          = true := by
        simp only [is_zero, decide_eq_true_eq]
        exact hle
      simp [Plane.intersect, hz]
  · intro t ht
    by_cases hz : is_zero (pl.a * l.direction.x + pl.b * l.direction.y + pl.c * l.direction.z)
        = true
    · simp [Plane.intersect, hz] at ht
    · rw [Bool.not_eq_true] at hz
      have hne := is_zero_false_ne hz
      simp only [Plane.intersect, hz, Bool.false_eq_true, if_false, Option.some.injEq] at ht
      subst ht
      simp only [Plane.subs, Line.at, Point.add_def, Point.smul]
      field_simp
      ring
  · refine ⟨⟨1, 0, 0, 0⟩, ⟨⟨1, 0, 0⟩, ⟨1, 0, 0⟩⟩, -1, ?_, by norm_num⟩
    norm_num [Plane.intersect, is_zero, FLOAT_EPS]

/-- C4 witness: the plane x = 3 and the ray from the origin along the x axis
intersect at t = 3, and the intersection point satisfies the plane equation. -/
theorem c4_plane_intersect_witness :
    Plane.subs ⟨1, 0, 0, -3⟩ (Line.at ⟨⟨1, 0, 0⟩, ⟨0, 0, 0⟩⟩ 3) = 0 :=
  (c4_plane_intersect ⟨1, 0, 0, -3⟩ ⟨⟨1, 0, 0⟩, ⟨0, 0, 0⟩⟩).2.1 3
    (by norm_num [Plane.intersect, is_zero, FLOAT_EPS])

theorem plane_new_error_iff (p v1 v2 : Point) :
    Plane.new p v1 v2 = .error .collinearVectors ↔ (v1.cross v2).is_zero = true := by
  unfold Plane.new
  by_cases hz : (v1.cross v2).is_zero = true
  · rw [if_pos hz]
    simp [hz]
  · rw [Bool.not_eq_true] at hz
    rw [if_neg (by simp [hz])]
    simp [hz]

theorem plane_new_ok (p v1 v2 : Point) (pl : Plane) (h : Plane.new p v1 v2 = .ok pl) :
    pl.normal = v1.cross v2 ∧ pl.subs p = 0 := by
  unfold Plane.new at h
  by_cases hz : (v1.cross v2).is_zero = true
  · rw [if_pos hz] at h
    exact absurd h (by simp)
  · rw [Bool.not_eq_true] at hz
    rw [if_neg (by simp [hz])] at h
    rw [Except.ok.injEq] at h
    subst h
    refine ⟨rfl, ?_⟩
    simp only [Plane.subs]
    ring

theorem triangle_new_error_iff (p1 p2 p3 : Point) :
    Triangle.new p1 p2 p3 = .error .collinearVectors ↔
      Plane.new p1 (Point.fromTo p1 p2) (Point.fromTo p1 p3) = .error .collinearVectors := by
  unfold Triangle.new
  cases h : Plane.new p1 (Point.fromTo p1 p2) (Point.fromTo p1 p3) with
  | error e =>
    cases e
    simp
  | ok pl =>
    simp

/-- C5: Plane::new fails with the collinear-vectors error exactly when the
cross product of the spanning vectors is the zero vector within epsilon; on
success the normal is the unnormalized cross product and the plane passes
through the given point; Triangle::new propagates exactly this failure; the
collinear-vectors error is the only error in the core; and the spec's example
Plane::new((0,0,0),(1,0,0),(2,0,0)) fails. -/
theorem c5_plane_new (p v1 v2 : Point) :
    (Plane.new p v1 v2 = .error .collinearVectors ↔ (v1.cross v2).is_zero = true)
    ∧ (∀ pl : Plane, Plane.new p v1 v2 = .ok pl →
        pl.normal = v1.cross v2 ∧ pl.subs p = 0)
    ∧ (∀ p1 p2 p3 : Point, Triangle.new p1 p2 p3 = .error .collinearVectors ↔
        ((Point.fromTo p1 p2).cross (Point.fromTo p1 p3)).is_zero = true)
    ∧ (∀ e : MathError, e = .collinearVectors)
    ∧ Plane.new ⟨0, 0, 0⟩ ⟨1, 0, 0⟩ ⟨2, 0, 0⟩ = .error .collinearVectors := by
  refine ⟨plane_new_error_iff p v1 v2, fun pl h => plane_new_ok p v1 v2 pl h,
    fun p1 p2 p3 => (triangle_new_error_iff p1 p2 p3).trans (plane_new_error_iff _ _ _),
    fun e => by cases e; rfl, ?_⟩
  exact (plane_new_error_iff _ _ _).mpr
    (by norm_num [Point.cross, Point.is_zero, is_zero, FLOAT_EPS])

/-- C5 witness: a successful construction (unit square corner vectors) whose
normal is the cross product and which passes through the base point. -/
theorem c5_plane_new_witness :
    Plane.normal ⟨1, 0, 0, 0⟩ = Point.cross ⟨0, 1, 0⟩ ⟨0, 0, 1⟩
      ∧ Plane.subs ⟨1, 0, 0, 0⟩ ⟨0, 0, 0⟩ = 0 :=
  (c5_plane_new ⟨0, 0, 0⟩ ⟨0, 1, 0⟩ ⟨0, 0, 1⟩).2.1 ⟨1, 0, 0, 0⟩
    (by norm_num [Plane.new, Point.cross, Point.is_zero, is_zero, FLOAT_EPS])

theorem add_zeroVec (v : Point) : v + zeroVec = v := by
  cases v
  simp [Point.add_def, zeroVec]

theorem zeroVec_add (v : Point) : zeroVec + v = v := by
  cases v
  simp [Point.add_def, zeroVec]

theorem codir_zero_right (v : Point) : v.is_codirectional zeroVec = true := by
  simp only [Point.is_codirectional, Point.is_collinear, Point.cross, Point.is_zero, is_zero,
    zeroVec, mul_zero, zero_mul, sub_zero, zero_sub, neg_zero, abs_zero, Bool.and_eq_true,
    decide_eq_true_eq]
  norm_num [FLOAT_EPS]

theorem codir_zero_left (v : Point) : zeroVec.is_codirectional v = true := by
  simp only [Point.is_codirectional, Point.is_collinear, Point.cross, Point.is_zero, is_zero,
    zeroVec, mul_zero, zero_mul, sub_zero, zero_sub, neg_zero, abs_zero, Bool.and_eq_true,
    decide_eq_true_eq]
  norm_num [FLOAT_EPS]

/-- C10: the zero vector is codirectional with every vector, on both sides;
consequently the fold seed always accepts the first edge cross product, and a
point whose edge cross products include the zero vector (for instance a
triangle vertex) is classified inside whenever the remaining cross products
are codirectional with each other. -/
theorem c10_zero_codirectional :
    (∀ v : Vector, v.is_codirectional zeroVec = true ∧ zeroVec.is_codirectional v = true)
    ∧ (∀ (t : Triangle) (pt : Point) (c0 c1 c2 : Vector), t.edgeCross pt = [c0, c1, c2] →
        ((c0 = zeroVec ∧ c2.is_codirectional c1 = true)
          ∨ (c1 = zeroVec ∧ c2.is_codirectional c0 = true)
          ∨ (c2 = zeroVec ∧ c1.is_codirectional c0 = true)) →
        t.is_inside pt = true) := by
  constructor
  · intro v
    exact ⟨codir_zero_right v, codir_zero_left v⟩
  · intro t pt c0 c1 c2 h hcase
    unfold Triangle.is_inside
    rw [h]
    simp only [List.foldl_cons, List.foldl_nil]
    rcases hcase with ⟨h0, hc⟩ | ⟨h1, hc⟩ | ⟨h2, hc⟩
    · subst h0
      simp [insideStep, codir_zero_right, codir_zero_left, add_zeroVec, zeroVec_add, hc]
    · subst h1
      simp [insideStep, codir_zero_right, codir_zero_left, add_zeroVec, zeroVec_add, hc]
    · subst h2
      simp [insideStep, codir_zero_right, codir_zero_left, add_zeroVec, zeroVec_add, hc]

/-- C10 witness: a triangle vertex is classified as inside: its own edge cross
product is the zero vector and the remaining ones are codirectional. -/
theorem c10_zero_codirectional_witness :
    Triangle.is_inside ⟨⟨0, 0, 0⟩, ⟨1, 0, 0⟩, ⟨0, 1, 0⟩, ⟨0, 0, 1, 0⟩⟩ ⟨0, 0, 0⟩ = true :=
  c10_zero_codirectional.2 ⟨⟨0, 0, 0⟩, ⟨1, 0, 0⟩, ⟨0, 1, 0⟩, ⟨0, 0, 1, 0⟩⟩ ⟨0, 0, 0⟩
    ⟨0, 0, 0⟩ ⟨0, 0, -1⟩ ⟨0, 0, 0⟩
    (by norm_num [Triangle.edgeCross, Point.fromTo, Point.cross])
    (Or.inl ⟨rfl, codir_zero_left ⟨0, 0, -1⟩⟩)

/-- The pairwise-codirectionality reading of the containment test, as the spec
states it: all three edge cross products are pairwise codirectional. -/
def pairwise_codirectional (c0 c1 c2 : Vector) : Prop :=
  c0.is_codirectional c1 = true ∧ c0.is_codirectional c2 = true
    ∧ c1.is_codirectional c2 = true

/-- A triangle in the plane x = 0 whose third vertex sits at height
-3 + 1e-8, and a probe point chosen so that the edge cross products are
(1,0,0), (-1e-8,0,0), (2,0,0): the epsilon tolerance of is_codirectional is
not transitive at this boundary. -/
def triC3 : Triangle :=
  ⟨⟨0, 0, 0⟩, ⟨0, 1, 0⟩, ⟨0, 0, -(299999999 / 100000000)⟩,
    ⟨-(299999999 / 100000000), 0, 0, 0⟩⟩

def ptC3 : Point := ⟨0, 200000000 / 299999999, -1⟩

theorem triC3_edgeCross :
    triC3.edgeCross ptC3 = [⟨1, 0, 0⟩, ⟨-(1 / 100000000), 0, 0⟩, ⟨2, 0, 0⟩] := by
  norm_num [triC3, ptC3, Triangle.edgeCross, Point.fromTo, Point.cross]

theorem triC3_is_inside : triC3.is_inside ptC3 = true := by
  unfold Triangle.is_inside
  rw [triC3_edgeCross]
  norm_num [insideStep, Point.is_codirectional, Point.is_collinear, Point.cross,
    Point.is_zero, is_zero, zeroVec, Point.add_def, FLOAT_EPS]

theorem triC3_not_pairwise :
    ¬ pairwise_codirectional ⟨1, 0, 0⟩ ⟨-(1 / 100000000), 0, 0⟩ ⟨2, 0, 0⟩ := by
  norm_num [pairwise_codirectional, Point.is_codirectional, Point.is_collinear, Point.cross,
    Point.is_zero, is_zero, FLOAT_EPS]

/-- C3 counterexample: is_inside is not equivalent to pairwise
codirectionality of the three edge cross products: for triC3 and ptC3 the
fold accepts (the middle product is exactly -1e-8 times the first, inside the
tolerance of each step) but the first and last products fail pairwise
codirectionality against the middle one. -/
theorem c3_counterexample :
    ¬ (∀ (t : Triangle) (pt : Point) (c0 c1 c2 : Vector),
        t.edgeCross pt = [c0, c1, c2] →
        (t.is_inside pt = true ↔ pairwise_codirectional c0 c1 c2)) := by
  intro h
  exact triC3_not_pairwise
    ((h triC3 ptC3 _ _ _ triC3_edgeCross).mp triC3_is_inside)

/-- C3 amended: is_inside accepts exactly when each edge cross product is
codirectional with the running sum of the previous ones, seeded at the zero
vector (the fold criterion); this is not equivalent to the three products
being pairwise codirectional. -/
theorem c3_is_inside_fold (t : Triangle) (pt : Point) (c0 c1 c2 : Vector)
    (h : t.edgeCross pt = [c0, c1, c2]) :
    t.is_inside pt = true ↔
      (c0.is_codirectional zeroVec = true ∧ c1.is_codirectional c0 = true
        ∧ c2.is_codirectional (c1 + c0) = true) := by
  unfold Triangle.is_inside
  rw [h]
  simp only [List.foldl_cons, List.foldl_nil, insideStep]
  by_cases h0 : c0.is_codirectional zeroVec = true
  · rw [if_pos h0, add_zeroVec]
    simp only [insideStep]
    by_cases h1 : c1.is_codirectional c0 = true
    · rw [if_pos h1]
      simp only [insideStep]
      by_cases h2 : c2.is_codirectional (c1 + c0) = true
      · rw [if_pos h2]
        simp [h0, h1, h2]
      · rw [if_neg h2]
        simp [h0, h1, h2]
    · rw [if_neg h1]
      simp only [insideStep]
      simp [h0, h1]
  · rw [if_neg h0]
    simp only [insideStep]
    simp [h0]

/-- C3 amended witness: the fold characterization applied to the concrete
triangle and probe point of the counterexample. -/
theorem c3_is_inside_fold_witness :
    triC3.is_inside ptC3 = true ↔
      ((⟨1, 0, 0⟩ : Vector).is_codirectional zeroVec = true
        ∧ (⟨-(1 / 100000000), 0, 0⟩ : Vector).is_codirectional ⟨1, 0, 0⟩ = true
        ∧ (⟨2, 0, 0⟩ : Vector).is_codirectional
            ((⟨-(1 / 100000000), 0, 0⟩ : Vector) + ⟨1, 0, 0⟩) = true) :=
  c3_is_inside_fold triC3 ptC3 ⟨1, 0, 0⟩ ⟨-(1 / 100000000), 0, 0⟩ ⟨2, 0, 0⟩ triC3_edgeCross

/-- Color from main.rs: an RGB triple of 8-bit channel values. -/
abbrev Color := ℕ × ℕ × ℕ

/-- ColoredSurface from main.rs. -/
structure ColoredSurface where
  triangle : Triangle
  color : Color
deriving DecidableEq

/-- Environment from main.rs.  The f32 light levels are modelled as rationals
like every other scalar. -/
structure Environment where
  origin : Vector
  sun : Vector
  ambient_light : ℚ
  diffuse_light : ℚ
  grid_size : ℚ
  surfaces : List ColoredSurface

/-- The sun_ray built at the top of compute_lights in main.rs: origin at the
hit point, direction from the hit point to the sun. -/
def shadow_ray (env : Environment) (pt : Point) : Line :=
  ⟨Point.fromTo pt env.sun, pt⟩

/-- The occlusion scan inside compute_lights in main.rs: all surfaces not
containing the hit point, intersected with the sun ray, any hit with
parameter at least -FLOAT_EPS. -/
def covered_check (env : Environment) (pt : Point) : Bool :=
  ((env.surfaces.filter fun sf => !sf.triangle.contains pt).map
      fun sf => sf.triangle.intersect (shadow_ray env pt)).any
    fun opt => (opt.map fun t => decide (t ≥ -FLOAT_EPS)).getD false

/-- compute_lights from main.rs. -/
def compute_lights (sq : ℚ → ℚ) (env : Environment) (surface : Triangle) (pt : Point) : ℚ :=
  if covered_check env pt
      || decide (surface.plane.subs env.origin * surface.plane.subs env.sun ≤ 0) then
    env.ambient_light
  else
    (1 - env.diffuse_light)
      + |Point.cos sq (shadow_ray env pt).direction surface.plane.normal| * env.diffuse_light

/-- The spec-side shadow condition: some scene triangle not containing the
hit point intersects the shadow ray at a parameter at least -1e-8. -/
def covered_spec (env : Environment) (pt : Point) : Prop :=
  ∃ sf ∈ env.surfaces, sf.triangle.contains pt = false
    ∧ ∃ t : ℚ, sf.triangle.intersect (shadow_ray env pt) = some t ∧ t ≥ -FLOAT_EPS

/-- The spec-side back-face condition: the hit plane puts camera origin and
sun on opposite sides (product of substitutions at most zero). -/
def back_lit (env : Environment) (surface : Triangle) : Prop :=
  surface.plane.subs env.origin * surface.plane.subs env.sun ≤ 0

theorem opt_check_iff (o : Option ℚ) :
    ((o.map fun t => decide (t ≥ -FLOAT_EPS)).getD false = true)
      ↔ ∃ t : ℚ, o = some t ∧ t ≥ -FLOAT_EPS := by
  cases o <;> simp

theorem covered_check_iff (env : Environment) (pt : Point) :
    covered_check env pt = true ↔ covered_spec env pt := by
  unfold covered_check covered_spec
  rw [List.any_eq_true]
  constructor
  · rintro ⟨o, ho, hcheck⟩
    rw [List.mem_map] at ho
    obtain ⟨sf, hsf, rfl⟩ := ho
    rw [List.mem_filter] at hsf
    obtain ⟨t, hsome, ht⟩ := (opt_check_iff _).mp hcheck
    exact ⟨sf, hsf.1, by simpa using hsf.2, t, hsome, ht⟩
  · rintro ⟨sf, hmem, hcont, t, hsome, ht⟩
    refine ⟨sf.triangle.intersect (shadow_ray env pt), ?_, (opt_check_iff _).mpr ⟨t, hsome, ht⟩⟩
    exact List.mem_map_of_mem _ (List.mem_filter.mpr ⟨hmem, by simp [hcont]⟩)

/-- C2: compute_lights returns the flat ambient level exactly when the point
is occluded toward the sun by a triangle not containing it, or when the hit
plane separates camera and sun; otherwise it returns
(1 - diffuse) + |cos(shadow direction, face normal)| * diffuse. -/
theorem c2_compute_lights (sq : ℚ → ℚ) (env : Environment) (surface : Triangle) (pt : Point) :
    (covered_spec env pt ∨ back_lit env surface →
      compute_lights sq env surface pt = env.ambient_light)
    ∧ (¬ (covered_spec env pt ∨ back_lit env surface) →
      compute_lights sq env surface pt =
        (1 - env.diffuse_light)
          + |Point.cos sq (shadow_ray env pt).direction surface.plane.normal|
              * env.diffuse_light) := by
  constructor
  · intro h
    have hcond : (covered_check env pt
        || decide (surface.plane.subs env.origin * surface.plane.subs env.sun ≤ 0)) = true := by
      rcases h with hc | hb
      · simp [(covered_check_iff env pt).mpr hc]
      · simp [back_lit] at hb
        simp [hb]
    simp [compute_lights, hcond]
  · intro h
    push_neg at h
    obtain ⟨hc, hb⟩ := h
    have hcov : covered_check env pt = false := by
      rw [← Bool.not_eq_true, covered_check_iff]
      exact hc
    have hback : decide (surface.plane.subs env.origin * surface.plane.subs env.sun ≤ 0)
        = false := by
      simp only [decide_eq_false_iff_not]
      exact hb
    simp [compute_lights, hcov, hback]

/-- A back-lit configuration used as concrete input: the camera at the origin
and the sun at (4,10,0) are on opposite sides of the plane x = 3. -/
def envC2 : Environment := ⟨⟨0, 0, 0⟩, ⟨4, 10, 0⟩, 2 / 5, 1 / 5, 40, []⟩

def triC8 : Triangle := ⟨⟨3, 0, 0⟩, ⟨3, 1, 0⟩, ⟨3, 0, 1⟩, ⟨1, 0, 0, -3⟩⟩

/-- C2 witness: for the back-lit configuration the result is the ambient
level. -/
theorem c2_compute_lights_witness :
    compute_lights (fun _ => 0) envC2 triC8 ⟨3, 0, 0⟩ = envC2.ambient_light :=
  (c2_compute_lights (fun _ => 0) envC2 triC8 ⟨3, 0, 0⟩).1
    (Or.inr (by norm_num [back_lit, envC2, triC8, Plane.subs]))

/-- The C8 scene: same as envC2 but with the sun at (2,5,0), which is on the
same side of the plane x = 3 as the camera; doubling the sun moves it to the
other side. -/
def envC8 : Environment := ⟨⟨0, 0, 0⟩, ⟨2, 5, 0⟩, 2 / 5, 1 / 5, 40, []⟩

theorem envC8_scaled_eq : ({ envC8 with sun := Point.smul 2 envC8.sun } : Environment)
    = envC2 := by
  norm_num [envC8, envC2, Point.smul]

theorem compute_lights_envC2 (sq : ℚ → ℚ) :
    compute_lights sq envC2 triC8 ⟨3, 0, 0⟩ = 2 / 5 := by
  have hcond : (covered_check envC2 ⟨3, 0, 0⟩
      || decide (triC8.plane.subs envC2.origin * triC8.plane.subs envC2.sun ≤ 0)) = true := by
    norm_num [covered_check, envC2, triC8, Plane.subs]
  unfold compute_lights
  rw [hcond]
  simp [envC2]

theorem compute_lights_envC8 (sq : ℚ → ℚ) :
    compute_lights sq envC8 triC8 ⟨3, 0, 0⟩ =
      (1 - 1 / 5)
        + |Point.cos sq (shadow_ray envC8 ⟨3, 0, 0⟩).direction triC8.plane.normal|
            * (1 / 5) := by
  have hcond : (covered_check envC8 ⟨3, 0, 0⟩
      || decide (triC8.plane.subs envC8.origin * triC8.plane.subs envC8.sun ≤ 0)) = false := by
    norm_num [covered_check, envC8, triC8, Plane.subs]
  unfold compute_lights
  rw [hcond]
  norm_num [envC8]

theorem compute_lights_envC8_scale_ne (sq : ℚ → ℚ) :
    compute_lights sq { envC8 with sun := Point.smul 2 envC8.sun } triC8 ⟨3, 0, 0⟩
      ≠ compute_lights sq envC8 triC8 ⟨3, 0, 0⟩ := by
  rw [envC8_scaled_eq, compute_lights_envC2, compute_lights_envC8]
  intro heq
  have habs : (0 : ℚ)
      ≤ |Point.cos sq (shadow_ray envC8 ⟨3, 0, 0⟩).direction triC8.plane.normal| :=
    abs_nonneg _
  linarith

/-- C8 counterexample: scaling the sun by the positive factor 2 changes the
brightness for the envC8 scene (it flips the back-face half-space test), for
every square-root model. -/
theorem c8_counterexample :
    ¬ (∀ (sq : ℚ → ℚ) (env : Environment) (surface : Triangle) (pt : Point) (k : ℚ),
        0 < k →
        compute_lights sq { env with sun := Point.smul k env.sun } surface pt
          = compute_lights sq env surface pt) := by
  intro h
  exact compute_lights_envC8_scale_ne (fun _ => 0)
    (h (fun _ => 0) envC8 triC8 ⟨3, 0, 0⟩ 2 (by norm_num))

/-- C8 amended: the sun is a point light at a finite position, not a light at
infinity: there are an environment, hit triangle, hit point and positive
scale factor for which replacing the sun vector by that positive multiple
changes the brightness returned by compute_lights, whatever the square-root
model. -/
theorem c8_sun_position_matters :
    ∃ (env : Environment) (surface : Triangle) (pt : Point) (k : ℚ), 0 < k ∧
      ∀ sq : ℚ → ℚ,
        compute_lights sq { env with sun := Point.smul k env.sun } surface pt
          ≠ compute_lights sq env surface pt :=
  ⟨envC8, triC8, ⟨3, 0, 0⟩, 2, by norm_num, fun sq => compute_lights_envC8_scale_ne sq⟩

/-- VOID_COLOR from main.rs: the background color. -/
def VOID_COLOR : Color := (30, 30, 30)

/-- The Rust cast (f32 value) as u8: saturating truncation toward zero. -/
def toU8 (q : ℚ) : ℕ := if q ≤ 0 then 0 else min 255 q.floor.toNat

/-- The running state of Rust Iterator::min_by: keep the accumulator unless
the next element's key is strictly smaller, so the first of several equal
minima wins. -/
def min_by_go {α : Type} : (ℚ × α) → List (ℚ × α) → ℚ × α
  | acc, [] => acc
  | acc, y :: ys => min_by_go (if y.1 < acc.1 then y else acc) ys

/-- Rust Iterator::min_by keyed on the first component, as used at the end of
cast_ray in main.rs. -/
def min_by {α : Type} : List (ℚ × α) → Option (ℚ × α)
  | [] => none
  | x :: xs => some (min_by_go x xs)

/-- The spec-side selection: the first element of the list whose key is less
than or equal to every key in the list (first global minimizer in scan
order). -/
def first_min {α : Type} (l : List (ℚ × α)) : Option (ℚ × α) :=
  l.find? fun p => l.all fun q => decide (p.1 ≤ q.1)

/-- The candidate list built by cast_ray in main.rs: every surface paired
with its intersection parameter (the map / filter is_some / unwrap chain is
filterMap), keeping only parameters at least -FLOAT_EPS. -/
def cast_ray_candidates (env : Environment) (ray : Line) : List (ℚ × ColoredSurface) :=
  (env.surfaces.filterMap fun sf => (sf.triangle.intersect ray).map fun t => (t, sf)).filter
    fun p => decide (p.1 ≥ -FLOAT_EPS)

/-- The shading applied to the nearest hit in cast_ray: every channel scaled
by the brightness from compute_lights at the hit point, cast back to u8. -/
def shade_hit (sq : ℚ → ℚ) (env : Environment) (ray : Line) (t : ℚ)
    (sf : ColoredSurface) : Color :=
  (toU8 ((sf.color.1 : ℚ) * compute_lights sq env sf.triangle (ray.at t)),
   toU8 ((sf.color.2.1 : ℚ) * compute_lights sq env sf.triangle (ray.at t)),
   toU8 ((sf.color.2.2 : ℚ) * compute_lights sq env sf.triangle (ray.at t)))

/-- cast_ray from main.rs. -/
def cast_ray (sq : ℚ → ℚ) (env : Environment) (ray : Line) : Color :=
  match min_by (cast_ray_candidates env ray) with
  | some (t, sf) => shade_hit sq env ray t sf
  | none => VOID_COLOR

/-- The specification of cast_ray: shade the first candidate achieving the
minimum parameter, background color when there is no candidate. -/
def cast_ray_spec (sq : ℚ → ℚ) (env : Environment) (ray : Line) : Color :=
  match first_min (cast_ray_candidates env ray) with
  | some (t, sf) => shade_hit sq env ray t sf
  | none => VOID_COLOR

theorem list_find_congr {α : Type} (p q : α → Bool) :
    ∀ (l : List α), (∀ x ∈ l, p x = q x) → l.find? p = l.find? q
  | [], _ => rfl
  | x :: xs, h => by
    have hx := h x (List.mem_cons_self x xs)
    by_cases hpx : p x = true
    · rw [List.find?_cons_of_pos _ hpx, List.find?_cons_of_pos _ (hx ▸ hpx)]
    · rw [List.find?_cons_of_neg _ hpx, List.find?_cons_of_neg _ (hx ▸ hpx)]
      exact list_find_congr p q xs fun y hy => h y (List.mem_cons_of_mem _ hy)

theorem min_by_go_spec {α : Type} :
    ∀ (ys : List (ℚ × α)) (acc : ℚ × α),
      ((acc :: ys).find? fun p => (acc :: ys).all fun q => decide (p.1 ≤ q.1))
        = some (min_by_go acc ys) := by
  intro ys
  induction ys with
  | nil =>
    intro acc
    rw [min_by_go, List.find?_cons_of_pos]
    simp
  | cons y t ih =>
    intro acc
    rw [min_by_go]
    by_cases hy : y.1 < acc.1
    · rw [if_pos hy]
      have hpa : ((acc :: y :: t).all fun q => decide (acc.1 ≤ q.1)) = false := by
        rw [Bool.eq_false_iff]
        intro hT
        rw [List.all_eq_true] at hT
        have := hT y (by simp)
        rw [decide_eq_true_eq] at this
        exact absurd this (not_le.mpr hy)
      rw [@List.find?_cons_of_neg _ (fun p => (acc :: y :: t).all fun q => decide (p.1 ≤ q.1))
        acc (y :: t) (by simp [hpa])]
      have hcong : ∀ x ∈ y :: t,
          ((acc :: y :: t).all fun q => decide (x.1 ≤ q.1))
            = ((y :: t).all fun q => decide (x.1 ≤ q.1)) := by
        intro x hx
        rw [Bool.eq_iff_iff, List.all_eq_true, List.all_eq_true]
        constructor
        · intro hall q hq
          exact hall q (List.mem_cons_of_mem _ hq)
        · intro hall q hq
          rcases List.mem_cons.mp hq with rfl | hq2
          · have hxy := hall y (by simp)
            rw [decide_eq_true_eq] at hxy
            rw [decide_eq_true_eq]
            exact le_of_lt (lt_of_le_of_lt hxy hy)
          · exact hall q hq2
      rw [list_find_congr _ _ (y :: t) hcong]
      exact ih y
    · rw [if_neg hy]
      have hy' : acc.1 ≤ y.1 := not_lt.mp hy
      by_cases hall : (t.all fun q => decide (acc.1 ≤ q.1)) = true
      · have hpa : ((acc :: y :: t).all fun q => decide (acc.1 ≤ q.1)) = true := by
          rw [List.all_cons, List.all_cons]
          simp only [Bool.and_eq_true, decide_eq_true_eq]
          exact ⟨le_refl _, hy', hall⟩
        rw [@List.find?_cons_of_pos _ (fun p => (acc :: y :: t).all fun q => decide (p.1 ≤ q.1))
          acc (y :: t) hpa]
        have hpa2 : ((acc :: t).all fun q => decide (acc.1 ≤ q.1)) = true := by
          rw [List.all_cons]
          simp only [Bool.and_eq_true, decide_eq_true_eq]
          exact ⟨le_refl _, hall⟩
        have ih2 := ih acc
        rw [@List.find?_cons_of_pos _ (fun p => (acc :: t).all fun q => decide (p.1 ≤ q.1))
          acc t hpa2] at ih2
        exact ih2
      · obtain ⟨z, hzmem, hzlt⟩ : ∃ z ∈ t, z.1 < acc.1 := by
          by_contra hno
          push_neg at hno
          apply hall
          rw [List.all_eq_true]
          intro q hq
          rw [decide_eq_true_eq]
          exact hno q hq
        have hpa : ((acc :: y :: t).all fun q => decide (acc.1 ≤ q.1)) = false := by
          rw [Bool.eq_false_iff]
          intro hT
          rw [List.all_eq_true] at hT
          have := hT z (by simp [hzmem])
          rw [decide_eq_true_eq] at this
          linarith
        rw [@List.find?_cons_of_neg _ (fun p => (acc :: y :: t).all fun q => decide (p.1 ≤ q.1))
          acc (y :: t) (by simp [hpa])]
        have hpy : ((acc :: y :: t).all fun q => decide (y.1 ≤ q.1)) = false := by
          rw [Bool.eq_false_iff]
          intro hT
          rw [List.all_eq_true] at hT
          have h2 := hT z (by simp [hzmem])
          rw [decide_eq_true_eq] at h2
          linarith
        rw [@List.find?_cons_of_neg _ (fun p => (acc :: y :: t).all fun q => decide (p.1 ≤ q.1))
          y t (by simp [hpy])]
        have hcong : ∀ x ∈ t,
            ((acc :: y :: t).all fun q => decide (x.1 ≤ q.1))
              = ((acc :: t).all fun q => decide (x.1 ≤ q.1)) := by
          intro x hx
          rw [Bool.eq_iff_iff, List.all_eq_true, List.all_eq_true]
          constructor
          · intro hall2 q hq
            rcases List.mem_cons.mp hq with rfl | hq2
            · exact hall2 q (by simp)
            · exact hall2 q (by simp [hq2])
          · intro hall2 q hq
            rcases List.mem_cons.mp hq with rfl | hq2
            · exact hall2 q (by simp)
            · rcases List.mem_cons.mp hq2 with rfl | hq3
              · have hxacc := hall2 acc (by simp)
                rw [decide_eq_true_eq] at hxacc
                rw [decide_eq_true_eq]
                exact le_trans hxacc hy'
              · exact hall2 q (by simp [hq3])
        have ih2 := ih acc
        have hpa2 : ((acc :: t).all fun q => decide (acc.1 ≤ q.1)) = false := by
          rw [Bool.eq_false_iff]
          intro hT
          rw [List.all_eq_true] at hT
          have := hT z (by simp [hzmem])
          rw [decide_eq_true_eq] at this
          linarith
        rw [@List.find?_cons_of_neg _ (fun p => (acc :: t).all fun q => decide (p.1 ≤ q.1))
          acc t (by simp [hpa2])] at ih2
        rw [list_find_congr _ _ t hcong]
        exact ih2

theorem min_by_eq_first_min {α : Type} (l : List (ℚ × α)) : min_by l = first_min l := by
  cases l with
  | nil => rfl
  | cons x xs =>
    rw [min_by, first_min, min_by_go_spec]

/-- C1: cast_ray intersects the ray with every scene surface, keeps the
parameters at least -1e-8, and shades the surface with the minimum parameter,
the first surface in scan order winning ties; with no candidate it returns
the background color (30,30,30): the implementation equals the
first-global-minimizer specification. -/
theorem c1_cast_ray_nearest (sq : ℚ → ℚ) (env : Environment) (ray : Line) :
    cast_ray sq env ray = cast_ray_spec sq env ray := by
  unfold cast_ray cast_ray_spec
  rw [min_by_eq_first_min]

/-- Model of an f64 for the min_by comparison stage: either NaN or a finite
value modelled as a rational. -/
inductive FloatVal where
  | nan : FloatVal
  | fin : ℚ → FloatVal
deriving DecidableEq

/-- The Rust filter predicate t >= -FLOAT_EPS on the float model: false for
NaN, the rational comparison otherwise. -/
def fge_eps (a : FloatVal) : Bool :=
  match a with
  | .nan => false
  | .fin q => decide (q ≥ -FLOAT_EPS)

/-- f64 comparison as used via Option Ordering: it fails (returns none)
exactly when one operand is NaN. -/
def fcmp (a b : FloatVal) : Option Ordering :=
  match a, b with
  | .fin x, .fin y => some (compare x y)
  | _, _ => none

/-- One min_by step over the float model; the outer none is the unwrap panic
on an incomparable pair. -/
def min_select_step {α : Type} (acc : Option (Option (FloatVal × α))) (p : FloatVal × α) :
    Option (Option (FloatVal × α)) :=
  match acc with
  | none => none
  | some none => some (some p)
  | some (some m) =>
    match fcmp p.1 m.1 with
    | none => none
    | some Ordering.lt => some (some p)
    | some _ => some (some m)

/-- min_by over the float model, propagating the unwrap panic as none. -/
def min_select {α : Type} (l : List (FloatVal × α)) : Option (Option (FloatVal × α)) :=
  l.foldl min_select_step (some none)

theorem min_select_aux {α : Type} :
    ∀ (l : List (FloatVal × α)) (acc : Option (FloatVal × α)),
      (∀ p ∈ l, p.1 ≠ FloatVal.nan) → (∀ m, acc = some m → m.1 ≠ FloatVal.nan) →
      (l.foldl min_select_step (some acc)).isSome = true := by
  intro l
  induction l with
  | nil =>
    intro acc _ _
    simp [List.foldl_nil]
  | cons p t ih =>
    intro acc hl hacc
    rw [List.foldl_cons]
    cases acc with
    | none =>
      rw [show min_select_step (some none) p = some (some p) from rfl]
      exact ih (some p) (fun q hq => hl q (List.mem_cons_of_mem _ hq))
        (fun m hm => by cases hm; exact hl p (by simp))
    | some m =>
      have hmnan : m.1 ≠ FloatVal.nan := hacc m rfl
      have hpnan : p.1 ≠ FloatVal.nan := hl p (by simp)
      obtain ⟨qm, hqm⟩ : ∃ x, m.1 = FloatVal.fin x := by
        cases hm : m.1 with
        | nan => exact absurd hm hmnan
        | fin x => exact ⟨x, rfl⟩
      obtain ⟨qp, hqp⟩ : ∃ x, p.1 = FloatVal.fin x := by
        cases hp : p.1 with
        | nan => exact absurd hp hpnan
        | fin x => exact ⟨x, rfl⟩
      have hstep : min_select_step (some (some m)) p
          = some (if compare qp qm = Ordering.lt then some p else some m) := by
        rw [min_select_step]
        rw [show fcmp p.1 m.1 = some (compare qp qm) from by rw [hqp, hqm]; rfl]
        rcases hcmp : compare qp qm with _ | _ | _ <;> simp [hcmp]
      rw [hstep]
      by_cases hlt : compare qp qm = Ordering.lt
      · rw [if_pos hlt]
        exact ih (some p) (fun q hq => hl q (List.mem_cons_of_mem _ hq))
          (fun n hn => by cases hn; exact hpnan)
      · rw [if_neg hlt]
        exact ih (some m) (fun q hq => hl q (List.mem_cons_of_mem _ hq))
          (fun n hn => by cases hn; exact hmnan)

/-- C9: the unwrap inside cast_ray's min_by never panics: every parameter
reaching the minimum selection has passed the filter at least -1e-8, which a
NaN cannot pass, so the comparison is total there (first conjunct, on the
float model of the selection stage); and in the rational embedding every
candidate of cast_ray indeed satisfies the filter bound (second conjunct). -/
theorem c9_min_by_total :
    (∀ (l : List (FloatVal × ColoredSurface)),
      (min_select (l.filter fun p => fge_eps p.1)).isSome = true)
    ∧ (∀ (env : Environment) (ray : Line) (p : ℚ × ColoredSurface),
        p ∈ cast_ray_candidates env ray → p.1 ≥ -FLOAT_EPS) := by
  constructor
  · intro l
    unfold min_select
    apply min_select_aux
    · intro p hp
      rw [List.mem_filter] at hp
      intro hnan
      rw [hnan] at hp
      exact absurd hp.2 (by rw [fge_eps]; simp)
    · intro m hm
      cases hm
  · intro env ray p hp
    rw [cast_ray_candidates, List.mem_filter] at hp
    exact decide_eq_true_eq.mp hp.2

def sfC9 : ColoredSurface := ⟨triC8, (255, 100, 100)⟩

def envC9 : Environment := ⟨⟨0, 0, 0⟩, ⟨2, 5, 0⟩, 2 / 5, 1 / 5, 40, [sfC9]⟩

theorem triC8_inside : triC8.is_inside ⟨3, 0, 0⟩ = true := by
  unfold Triangle.is_inside
  rw [show triC8.edgeCross ⟨3, 0, 0⟩ = [⟨0, 0, 0⟩, ⟨-1, 0, 0⟩, ⟨0, 0, 0⟩] from by
    norm_num [triC8, Triangle.edgeCross, Point.fromTo, Point.cross]]
  norm_num [insideStep, Point.is_codirectional, Point.is_collinear, Point.cross,
    Point.is_zero, is_zero, zeroVec, Point.add_def, FLOAT_EPS]

theorem triC8_intersect : triC8.intersect ⟨⟨1, 0, 0⟩, ⟨0, 0, 0⟩⟩ = some 3 := by
  have h2 : Line.at ⟨⟨1, 0, 0⟩, ⟨0, 0, 0⟩⟩ 3 = ⟨3, 0, 0⟩ := by
    norm_num [Line.at, Point.smul, Point.add_def]
  unfold Triangle.intersect
  rw [show triC8.plane.intersect ⟨⟨1, 0, 0⟩, ⟨0, 0, 0⟩⟩ = some 3 from by
    norm_num [triC8, Plane.intersect, is_zero, FLOAT_EPS]]
  simp [h2, triC8_inside]

theorem envC9_candidates :
    cast_ray_candidates envC9 ⟨⟨1, 0, 0⟩, ⟨0, 0, 0⟩⟩ = [((3 : ℚ), sfC9)] := by
  unfold cast_ray_candidates
  rw [show envC9.surfaces = [sfC9] from rfl]
  simp only [List.filterMap_cons, List.filterMap_nil,
    show sfC9.triangle = triC8 from rfl, triC8_intersect, Option.map_some']
  norm_num [List.filter, FLOAT_EPS]

/-- C9 witness: a concrete scene with one triangle hit at parameter 3; the
candidate passes the filter and hence satisfies the bound. -/
theorem c9_min_by_total_witness :
    ((3 : ℚ), sfC9) ∈ cast_ray_candidates envC9 ⟨⟨1, 0, 0⟩, ⟨0, 0, 0⟩⟩
      ∧ ((3 : ℚ), sfC9).1 ≥ -FLOAT_EPS :=
  ⟨by rw [envC9_candidates]; simp,
   c9_min_by_total.2 envC9 ⟨⟨1, 0, 0⟩, ⟨0, 0, 0⟩⟩ ((3 : ℚ), sfC9)
     (by rw [envC9_candidates]; simp)⟩

/-- IMAGE_SIZE from main.rs; the Rust tuple fields .0 (width) and .1 (height)
are .1 and .2 here. -/
def IMAGE_SIZE : ℕ × ℕ := (500, 500)

/-- The pixel count of the buffer allocated in cast_rays. -/
def pixel_count : ℕ := IMAGE_SIZE.1 * IMAGE_SIZE.2

/-- The interpolated closure in create_ray: map a pixel coordinate into
[-1, 1]. -/
def interpolated (cur maxc : ℕ) : ℚ := 2 * ((cur : ℚ) / (maxc : ℚ)) - 1

/-- create_ray from main.rs: two orthogonal normalized basis vectors from the
camera direction and the y axis, image-plane offset by the interpolated
coordinates scaled by grid_size, ray from the camera origin toward that
point. -/
def create_ray (sq : ℚ → ℚ) (env : Environment) (c : ℕ × ℕ) : Line :=
  let vx := (env.origin.cross ⟨0, 1, 0⟩).normalized sq
  let vy := (env.origin.cross vx).normalized sq
  let pt := zeroVec + Point.smul (interpolated c.2 IMAGE_SIZE.2 * env.grid_size) vx
      + Point.smul (interpolated c.1 IMAGE_SIZE.1 * env.grid_size) vy
  ⟨Point.fromTo env.origin pt, env.origin⟩

/-- The per-pixel computation of cast_rays: linear buffer index to pixel
coordinates (i / height, i mod height), camera ray, cast. -/
def pixel_ray (sq : ℚ → ℚ) (env : Environment) (i : ℕ) : Color :=
  cast_ray sq env (create_ray sq env (i / IMAGE_SIZE.2, i % IMAGE_SIZE.2))

/-- The chunk lengths produced by chunks_mut(cs) on a buffer of total
elements: full chunks of size cs, and a final smaller chunk holding the
remainder when cs does not divide total. -/
def chunk_lens (cs total : ℕ) : List ℕ :=
  List.replicate (total / cs) cs ++ (if total % cs = 0 then [] else [total % cs])

/-- One worker's loop in cast_rays: the pixels of one chunk, each ray built
from the linear index i + offset into the full row-major buffer. -/
def render_chunk (sq : ℚ → ℚ) (env : Environment) (offset len : ℕ) : List Color :=
  (List.range len).map fun i => pixel_ray sq env (i + offset)

/-- All chunks in order with the running offset bookkeeping of cast_rays. -/
def render_chunks (sq : ℚ → ℚ) (env : Environment) : ℕ → List ℕ → List Color
  | _, [] => []
  | offset, len :: rest =>
    render_chunk sq env offset len ++ render_chunks sq env (offset + len) rest

/-- cast_rays from main.rs, with the worker count (num_cpus at runtime) as a
parameter: chunk size is the floor of pixel count over workers. -/
def cast_rays (sq : ℚ → ℚ) (env : Environment) (n_threads : ℕ) : List Color :=
  render_chunks sq env 0 (chunk_lens (pixel_count / n_threads) pixel_count)

/-- The sequential specification of the render pass: one cast_ray per pixel
index, in buffer order. -/
def cast_rays_seq (sq : ℚ → ℚ) (env : Environment) : List Color :=
  (List.range pixel_count).map fun i => pixel_ray sq env i

/-- The pixel indices written by the chunks, in order, each chunk's indices
derived from its linear offset. -/
def chunk_indices : ℕ → List ℕ → List ℕ
  | _, [] => []
  | offset, len :: rest =>
    ((List.range len).map fun i => i + offset) ++ chunk_indices (offset + len) rest

theorem chunk_lens_sum (cs total : ℕ) (_h : 0 < cs) : (chunk_lens cs total).sum = total := by
  unfold chunk_lens
  rw [List.sum_append, List.sum_replicate, smul_eq_mul]
  by_cases hm : total % cs = 0
  · rw [if_pos hm]
    rw [List.sum_nil, add_zero]
    exact Nat.div_mul_cancel (Nat.dvd_of_mod_eq_zero hm)
  · rw [if_neg hm]
    rw [List.sum_cons, List.sum_nil, add_zero]
    calc total / cs * cs + total % cs = cs * (total / cs) + total % cs := by ring
      _ = total := Nat.div_add_mod total cs

theorem render_chunks_eq (sq : ℚ → ℚ) (env : Environment) :
    ∀ (lens : List ℕ) (off : ℕ),
      render_chunks sq env off lens = render_chunk sq env off lens.sum := by
  intro lens
  induction lens with
  | nil =>
    intro off
    rw [render_chunks, List.sum_nil, render_chunk]
    simp
  | cons l rest ih =>
    intro off
    rw [render_chunks, List.sum_cons, ih (off + l)]
    unfold render_chunk
    rw [List.range_add, List.map_append, List.map_map]
    congr 1
    apply List.map_congr_left
    intro i _
    simp only [Function.comp_apply]
    congr 1
    omega

theorem chunk_indices_eq :
    ∀ (lens : List ℕ) (off : ℕ),
      chunk_indices off lens = (List.range lens.sum).map fun i => i + off := by
  intro lens
  induction lens with
  | nil =>
    intro off
    rw [chunk_indices, List.sum_nil]
    simp
  | cons l rest ih =>
    intro off
    rw [chunk_indices, List.sum_cons, ih (off + l)]
    rw [List.range_add, List.map_append, List.map_map]
    congr 1
    apply List.map_congr_left
    intro i _
    simp only [Function.comp_apply]
    omega

/-- C6: the pixel buffer of cast_rays is a pure function of the scene: for
every chunk partition with a positive chunk size it equals the sequential
map of cast_ray over the camera ray of every pixel index (i / height,
i mod height); hence any two runs, and runs with different worker counts,
produce identical buffers. -/
theorem c6_cast_rays_deterministic (sq : ℚ → ℚ) (env : Environment) (n : ℕ)
    (h : 0 < pixel_count / n) :
    cast_rays sq env n = cast_rays_seq sq env := by
  unfold cast_rays
  rw [render_chunks_eq sq env _ 0, chunk_lens_sum _ _ h]
  unfold render_chunk cast_rays_seq
  simp

/-- C6 witness: with three workers the chunked render of a concrete scene
equals the sequential one. -/
theorem c6_cast_rays_deterministic_witness :
    0 < pixel_count / 3
      ∧ cast_rays (fun _ => 0) envC2 3 = cast_rays_seq (fun _ => 0) envC2 :=
  ⟨by decide, c6_cast_rays_deterministic (fun _ => 0) envC2 3 (by decide)⟩

/-- C7 counterexample: with 3 hardware threads the buffer of 500*500 pixels
is not split into exactly one chunk per thread of size floor(250000/3):
chunks_mut produces 4 chunks (three of 83333 and one of 1). -/
theorem c7_counterexample :
    ¬ ((chunk_lens (pixel_count / 3) pixel_count).length = 3
      ∧ ∀ l ∈ chunk_lens (pixel_count / 3) pixel_count, l = pixel_count / 3) := by
  decide

/-- C7 amended: the buffer is split into contiguous chunks of size
floor(pixel_count / thread_count) plus, when that size does not divide the
pixel count, one final smaller chunk with the remainder (so there can be more
chunks than threads); the chunks disjointly cover every pixel index exactly
once in order, each chunk's indices derived from its linear offset. -/
theorem c7_chunk_partition (cs total : ℕ) (h : 0 < cs) :
    chunk_indices 0 (chunk_lens cs total) = List.range total
    ∧ (∀ l ∈ chunk_lens cs total, l = cs ∨ l = total % cs)
    ∧ (chunk_lens cs total).length
        = total / cs + (if total % cs = 0 then 0 else 1) := by
  refine ⟨?_, ?_, ?_⟩
  · rw [chunk_indices_eq, chunk_lens_sum cs total h]
    simp
  · intro l hl
    unfold chunk_lens at hl
    rw [List.mem_append] at hl
    rcases hl with hl | hl
    · exact Or.inl (List.eq_of_mem_replicate hl)
    · by_cases hm : total % cs = 0
      · rw [if_pos hm] at hl
        simp at hl
      · rw [if_neg hm] at hl
        simp at hl
        exact Or.inr hl
  · unfold chunk_lens
    rw [List.length_append, List.length_replicate]
    by_cases hm : total % cs = 0
    · rw [if_pos hm, if_pos hm]
      simp
    · rw [if_neg hm, if_neg hm]
      simp

/-- C7 amended witness: buffer of 10 pixels with chunk size 4: chunks
[4, 4, 2] cover the indices 0..9 exactly once in order. -/
theorem c7_chunk_partition_witness :
    chunk_indices 0 (chunk_lens 4 10) = List.range 10
      ∧ (∀ l ∈ chunk_lens 4 10, l = 4 ∨ l = 10 % 4)
      ∧ (chunk_lens 4 10).length = 10 / 4 + (if 10 % 4 = 0 then 0 else 1) :=
  c7_chunk_partition 4 10 (by norm_num)

end Rays
